import Mathlib

/-!
Verification of the varcode effect-prediction engine specification.

The repository's `src/` holds only the quick-start notebook (a caller of the
library), so the engine itself — Variant model, effect classifier, priority
ranking and the collection operations — is modelled here from the
specification's component design (sections 3, 4, 6 and 7), faithful to its
words, and the spec's testable properties are settled against that model.
-/

set_option maxRecDepth 100000

namespace Varcode

/-- Modelled from the spec: the error kinds of section 7 (`InvalidVariant`,
`ReferenceMismatch`, `EmptyEffectSet`); the library source carrying them is
not under `src/`. -/
inductive VarcodeError where
  | invalidVariant
  | referenceMismatch
  | emptyEffectSet
deriving DecidableEq

/-- Modelled from the spec: the nucleotide alphabet of section 4.1. -/
def nucleotideAlphabet : List Char := ['A', 'C', 'G', 'T', 'N', '-']

/-- Uppercase an ASCII letter, leaving every other character unchanged. -/
def upChar (c : Char) : Char :=
  if 'a' ≤ c ∧ c ≤ 'z' then Char.ofNat (c.toNat - 32) else c

/-- Modelled from the spec: allele normalization of section 4.1 — a single
unknown marker is mapped to empty-string semantics, and the canonical form is
independent of case. -/
def normalizeAllele (s : String) : List Char :=
  if s = "." then [] else s.data.map upChar

/-- Modelled from the spec: the normalized, immutable variant of section 3
(contig, 1-based position, reference allele, alternate allele, build). -/
structure Variant where
  contig : String
  position : Int
  ref : List Char
  alt : List Char
  build : String
deriving DecidableEq

def alleleCharsValid (l : List Char) : Bool :=
  l.all (fun c => decide (c ∈ nucleotideAlphabet))

/-- Modelled from the spec: Variant construction of section 4.1 — fails with
`InvalidVariant` if the position is non-positive, if both normalized alleles
are empty, or if an allele holds a character outside the nucleotide
alphabet. -/
def Variant.new (contig : String) (position : Int) (refAllele altAllele : String)
    (build : String) : Except VarcodeError Variant :=
  let r := normalizeAllele refAllele
  let a := normalizeAllele altAllele
  if position ≤ 0 then Except.error VarcodeError.invalidVariant
  else if r = [] ∧ a = [] then Except.error VarcodeError.invalidVariant
  else if alleleCharsValid (r ++ a) then Except.ok ⟨contig, position, r, a, build⟩
  else Except.error VarcodeError.invalidVariant

/-- Modelled from the spec: the wire-visible textual contract of section 6 —
substitutions print as chr, contig, the genomic position, then ref, a
greater-than sign and alt; insertions print the flanking position pair and the
inserted bases. -/
def Variant.shortDescription (v : Variant) : String :=
  if v.ref = [] then
    ("chr" ++ v.contig ++ " g." ++ toString v.position ++ "_"
      ++ toString (v.position + 1) ++ "ins" ++ String.mk v.alt)
  else
    ("chr" ++ v.contig ++ " g." ++ toString v.position ++ String.mk v.ref
      ++ ">" ++ String.mk v.alt)

/-- Modelled from the spec: the effect category taxonomy of section 4.3. The
spec's equal-length rule of section 4.2 names `Silent` (no amino-acid change)
and `Substitution` (exactly one change); an equal-length change touching more
than one amino acid is given its own category so `Substitution` keeps the
spec's exactly-one meaning. -/
inductive Category where
  | Silent
  | Intronic
  | UTR
  | NoncodingTranscript
  | IncompleteTranscript
  | Substitution
  | ComplexSubstitution
  | Insertion
  | Deletion
  | ExonicSpliceSite
  | IntronicSpliceSite
  | FrameShift
  | StopLoss
  | StopGain
deriving DecidableEq

/-- Modelled from the spec: the relative severity column of the section 4.3
table (`ComplexSubstitution` shares the severity of `Substitution`). -/
def Category.severity : Category → Nat
  | .Silent => 1
  | .Intronic => 1
  | .UTR => 1
  | .NoncodingTranscript => 1
  | .IncompleteTranscript => 2
  | .Substitution => 4
  | .ComplexSubstitution => 4
  | .Insertion => 5
  | .Deletion => 5
  | .ExonicSpliceSite => 6
  | .IntronicSpliceSite => 6
  | .FrameShift => 7
  | .StopLoss => 7
  | .StopGain => 8

/-- Modelled from the spec: the effect record of section 3 — the category tag,
the source variant, the transcript identifier and name, a short description,
and for coding-altering categories the first affected amino-acid offset and
the original and mutant protein sequences; splice-site effects embed the
alternate effect computed with the splice rule ignored (section 4.2, step 5,
and the design note of section 9). -/
inductive Effect where
  | mk (category : Category) (variant : Variant) (transcriptId : String)
      (transcriptName : String) (description : String)
      (aaMutationStartOffset : Option Nat) (originalProtein : Option (List Char))
      (mutantProtein : Option (List Char)) (alternateEffect : Option Effect) : Effect

def Effect.category : Effect → Category
  | .mk c _ _ _ _ _ _ _ _ => c

def Effect.variant : Effect → Variant
  | .mk _ v _ _ _ _ _ _ _ => v

def Effect.transcriptId : Effect → String
  | .mk _ _ tid _ _ _ _ _ _ => tid

def Effect.transcriptName : Effect → String
  | .mk _ _ _ tn _ _ _ _ _ => tn

def Effect.description : Effect → String
  | .mk _ _ _ _ d _ _ _ _ => d

def Effect.aaMutationStartOffset : Effect → Option Nat
  | .mk _ _ _ _ _ o _ _ _ => o

def Effect.originalProtein : Effect → Option (List Char)
  | .mk _ _ _ _ _ _ p _ _ => p

def Effect.mutantProtein : Effect → Option (List Char)
  | .mk _ _ _ _ _ _ _ p _ => p

def Effect.alternateEffect : Effect → Option Effect
  | .mk _ _ _ _ _ _ _ _ a => a

/-- Lexicographic strict comparison on lists of naturals, used for the
transcript-identifier tie break. -/
def lexLtB : List Nat → List Nat → Bool
  | [], [] => false
  | [], _ :: _ => true
  | _ :: _, [] => false
  | a :: as, b :: bs => if a < b then true else if b < a then false else lexLtB as bs

/-- A string rendered as its list of character codes, so that the tie break on
transcript identifiers is a plain lexicographic order. -/
def strKey (s : String) : List Nat := s.data.map Char.toNat

/-- Modelled from the spec: the tie-break key of section 4.4 — severity first,
then non-silent over silent, then the transcript identifier string; encoded so
that comparing two keys lexicographically compares exactly those three
components in that order. -/
def priorityKey (e : Effect) : List Nat :=
  e.category.severity :: (if e.category = Category.Silent then 0 else 1)
    :: strKey e.transcriptId

/-- Modelled from the spec: the strict priority order of section 4.4 — `a`
ranks strictly above `b` when `b`'s key is lexicographically below `a`'s. -/
def Effect.priorityGT (a b : Effect) : Prop := lexLtB (priorityKey b) (priorityKey a) = true

/-- The better of two effects under the priority order; ties on the full key
keep the first. -/
def betterEffect (best x : Effect) : Effect :=
  if lexLtB (priorityKey best) (priorityKey x) then x else best

/-- Modelled from the spec: `top_priority_effect` of section 4.4 — the single
maximum of a non-empty sequence under the priority order, `EmptyEffectSet` on
an empty input. -/
def topPriorityEffect : List Effect → Except VarcodeError Effect
  | [] => Except.error VarcodeError.emptyEffectSet
  | e :: es => Except.ok (es.foldl betterEffect e)

/-- Modelled from the spec: `filter_by_minimum_priority` of section 4.5 — keep
only effects whose severity is at least that of the given category, in
order. -/
def filterByMinimumPriority (c : Category) (l : List Effect) : List Effect :=
  l.filter (fun e => decide (c.severity ≤ e.category.severity))

/-- Modelled from the spec: the categories removed by
`drop_silent_and_noncoding` (section 4.5). -/
def silentAndNoncodingCategories : List Category :=
  [Category.Silent, Category.Intronic, Category.UTR, Category.NoncodingTranscript]

/-- Modelled from the spec: `drop_silent_and_noncoding` of section 4.5 — the
filter removing exactly the silent and non-coding categories. -/
def dropSilentAndNoncoding (l : List Effect) : List Effect :=
  l.filter (fun e => decide (e.category ∉ silentAndNoncodingCategories))

inductive Strand where
  | plus
  | minus
deriving DecidableEq

/-- Modelled from the spec: the transcript structure of section 3, owned by
the annotation provider — ordered exon intervals in genomic coordinates
(ascending), CDS start/end offsets within the spliced transcript (half-open),
strand, completeness flags, a coding flag for the transcript biotype, the
spliced transcript sequence in transcript orientation, and the reference
protein sequence. -/
structure Transcript where
  id : String
  name : String
  strand : Strand
  exons : List (Int × Int)
  cdsStart : Nat
  cdsEnd : Nat
  hasStartCodon : Bool
  hasStopCodon : Bool
  hasCDS : Bool
  sequence : List Char
  proteinSequence : List Char

/-- Total length of the spliced transcript, from its exon intervals. -/
def splicedLength (exons : List (Int × Int)) : Nat :=
  (exons.map (fun iv => (iv.2 - iv.1 + 1).toNat)).sum

/-- Offset of a genomic position within the spliced transcript read in
genomic (plus-strand) orientation, summing the earlier exons. -/
def exonicOffset : List (Int × Int) → Int → Option Nat
  | [], _ => none
  | iv :: rest, g =>
    if iv.1 ≤ g ∧ g ≤ iv.2 then some (g - iv.1).toNat
    else match exonicOffset rest g with
      | some o => some ((iv.2 - iv.1 + 1).toNat + o)
      | none => none

/-- Offset of a genomic position within the spliced transcript, read in
transcript orientation (reversed for the minus strand). -/
def transcriptOffset (t : Transcript) (g : Int) : Option Nat :=
  match exonicOffset t.exons g with
  | some o =>
    some (match t.strand with
      | Strand.plus => o
      | Strand.minus => splicedLength t.exons - 1 - o)
  | none => none

/-- Genomic positions touched by a variant: the span of the reference allele,
or the two bases flanking a pure insertion. -/
def affectedPositions (v : Variant) : List Int :=
  if v.ref = [] then [v.position, v.position + 1]
  else (List.range v.ref.length).map (fun i => v.position + (i : Int))

def inAnyExonB (t : Transcript) (g : Int) : Bool :=
  t.exons.any (fun iv => decide (iv.1 ≤ g ∧ g ≤ iv.2))

/-- The variant lies entirely within an intron: no touched position overlaps
an exon (section 4.2, step 3). -/
def entirelyIntronicB (v : Variant) (t : Transcript) : Bool :=
  (affectedPositions v).all (fun g => !(inAnyExonB t g))

/-- The variant falls within the coding region as annotated: some touched
position maps into the CDS span of the spliced transcript. -/
def affectsCDSB (v : Variant) (t : Transcript) : Bool :=
  (affectedPositions v).any (fun g =>
    match transcriptOffset t g with
    | some o => decide (t.cdsStart ≤ o ∧ o < t.cdsEnd)
    | none => false)

/-- Consecutive pairs of a list, used for the exon/intron boundaries between
adjacent exons. -/
def adjacentPairs : List (Int × Int) → List ((Int × Int) × (Int × Int))
  | a :: b :: rest => (a, b) :: adjacentPairs (b :: rest)
  | _ => []

/-- Modelled from the spec: the exonic part of the canonical splice window of
section 4.2, step 5 — up to 3 bases into the exon on either side of an
exon/intron boundary between adjacent exons. -/
def hitsExonicSpliceB (v : Variant) (t : Transcript) : Bool :=
  (adjacentPairs t.exons).any (fun p =>
    (affectedPositions v).any (fun g =>
      decide ((p.1.2 - 2 ≤ g ∧ g ≤ p.1.2) ∨ (p.2.1 ≤ g ∧ g ≤ p.2.1 + 2))))

/-- Modelled from the spec: the intronic part of the canonical splice window
of section 4.2, step 5 — 2 bases into the intron on either side of an
exon/intron boundary between adjacent exons. -/
def hitsIntronicSpliceB (v : Variant) (t : Transcript) : Bool :=
  (adjacentPairs t.exons).any (fun p =>
    (affectedPositions v).any (fun g =>
      decide ((p.1.2 + 1 ≤ g ∧ g ≤ p.1.2 + 2) ∨ (p.2.1 - 2 ≤ g ∧ g ≤ p.2.1 - 1))))

def complementChar : Char → Char
  | 'A' => 'T'
  | 'T' => 'A'
  | 'C' => 'G'
  | 'G' => 'C'
  | c => c

def revcomp (l : List Char) : List Char := (l.map complementChar).reverse

/-- Reverse-complement an allele when the transcript strand is negative
(section 4.2, step 6). -/
def strandCorrect (t : Transcript) (l : List Char) : List Char :=
  match t.strand with
  | Strand.plus => l
  | Strand.minus => revcomp l

/-- The standard genetic code; stop codons translate to the stop mark, and
codons holding an unrecognized base translate to the unknown mark. -/
def codonAA : Char → Char → Char → Char
  | 'T', 'T', 'T' => 'F'
  | 'T', 'T', 'C' => 'F'
  | 'T', 'T', 'A' => 'L'
  | 'T', 'T', 'G' => 'L'
  | 'C', 'T', _ => 'L'
  | 'A', 'T', 'T' => 'I'
  | 'A', 'T', 'C' => 'I'
  | 'A', 'T', 'A' => 'I'
  | 'A', 'T', 'G' => 'M'
  | 'G', 'T', _ => 'V'
  | 'T', 'C', _ => 'S'
  | 'C', 'C', _ => 'P'
  | 'A', 'C', _ => 'T'
  | 'G', 'C', _ => 'A'
  | 'T', 'A', 'T' => 'Y'
  | 'T', 'A', 'C' => 'Y'
  | 'T', 'A', 'A' => '*'
  | 'T', 'A', 'G' => '*'
  | 'C', 'A', 'T' => 'H'
  | 'C', 'A', 'C' => 'H'
  | 'C', 'A', 'A' => 'Q'
  | 'C', 'A', 'G' => 'Q'
  | 'A', 'A', 'T' => 'N'
  | 'A', 'A', 'C' => 'N'
  | 'A', 'A', 'A' => 'K'
  | 'A', 'A', 'G' => 'K'
  | 'G', 'A', 'T' => 'D'
  | 'G', 'A', 'C' => 'D'
  | 'G', 'A', 'A' => 'E'
  | 'G', 'A', 'G' => 'E'
  | 'T', 'G', 'T' => 'C'
  | 'T', 'G', 'C' => 'C'
  | 'T', 'G', 'A' => '*'
  | 'T', 'G', 'G' => 'W'
  | 'C', 'G', _ => 'R'
  | 'A', 'G', 'T' => 'S'
  | 'A', 'G', 'C' => 'S'
  | 'A', 'G', 'A' => 'R'
  | 'A', 'G', 'G' => 'R'
  | 'G', 'G', _ => 'G'
  | _, _, _ => 'X'

/-- Translate a coding sequence codon by codon, stopping at the first stop
codon, or at the end of the sequence if none (section 4.2, step 6); a
trailing partial codon is not translated. -/
def translate : List Char → List Char
  | c1 :: c2 :: c3 :: rest =>
    if codonAA c1 c2 c3 = '*' then [] else codonAA c1 c2 c3 :: translate rest
  | _ => []

/-- The reference coding sequence: the CDS slice of the spliced transcript
sequence. -/
def codingSequence (t : Transcript) : List Char :=
  (t.sequence.drop t.cdsStart).take (t.cdsEnd - t.cdsStart)

/-- Start of the allele within the spliced transcript: the least mapped
offset of the reference span, or one past the least mapped offset of the
flanking pair for a pure insertion. -/
def cdnaAlleleStart (v : Variant) (t : Transcript) : Option Nat :=
  if v.ref = [] then
    match transcriptOffset t v.position, transcriptOffset t (v.position + 1) with
    | some a, some b => some (min a b + 1)
    | _, _ => none
  else
    match transcriptOffset t v.position,
        transcriptOffset t (v.position + ((v.ref.length : Int) - 1)) with
    | some a, some b => some (min a b)
    | _, _ => none

/-- Indices, counted from `k`, at which two sequences disagree, walking both
in one pass. -/
def diffIndicesAux : Nat → List Char → List Char → List Nat
  | _, [], _ => []
  | _, _ :: _, [] => []
  | k, x :: xs, y :: ys =>
    if x = y then diffIndicesAux (k + 1) xs ys
    else k :: diffIndicesAux (k + 1) xs ys

/-- Indices at which two equal-length sequences disagree. -/
def diffIndices (xs ys : List Char) : List Nat := diffIndicesAux 0 xs ys

/-- Length of the common prefix of two sequences, the first changed
amino-acid offset used by frameshift and stop-altering descriptions. -/
def commonPrefixLength : List Char → List Char → Nat
  | x :: xs, y :: ys => if x = y then commonPrefixLength xs ys + 1 else 0
  | _, _ => 0

def mkSimpleEffect (c : Category) (v : Variant) (t : Transcript) : Effect :=
  Effect.mk c v t.id t.name v.shortDescription none none none none

def mkSpliceEffect (c : Category) (v : Variant) (t : Transcript) (alt : Effect) : Effect :=
  Effect.mk c v t.id t.name alt.description alt.aaMutationStartOffset
    alt.originalProtein alt.mutantProtein (some alt)

def aaChar (p : List Char) (i : Nat) : String := String.mk [p.getD i '?']

def mkCodingEffect (c : Category) (v : Variant) (t : Transcript) (desc : String)
    (i : Nat) (origP mutP : List Char) : Effect :=
  Effect.mk c v t.id t.name desc (some i) (some origP) (some mutP) none

/-- Modelled from the spec: step 6 of the classifier (section 4.2) — check the
reference allele against the provider's coding sequence (`ReferenceMismatch`
on disagreement), substitute the strand-corrected alleles, translate original
and mutant coding sequences, and decide the category from the allele
lengths; protein-level descriptions use the 1-based residue number. -/
def classifyCoding (v : Variant) (t : Transcript) : Except VarcodeError Effect :=
  match cdnaAlleleStart v t with
  | none => Except.error VarcodeError.referenceMismatch
  | some cst =>
    let relStart := cst - t.cdsStart
    let coding := codingSequence t
    let refC := strandCorrect t v.ref
    let altC := strandCorrect t v.alt
    if (coding.drop relStart).take refC.length ≠ refC then
      Except.error VarcodeError.referenceMismatch
    else
      let mutCoding := coding.take relStart ++ altC ++ coding.drop (relStart + refC.length)
      let origP := translate coding
      let mutP := translate mutCoding
      if v.ref.length = v.alt.length then
        if mutP.length < origP.length then
          Except.ok (mkCodingEffect Category.StopGain v t
            ("p." ++ aaChar origP (commonPrefixLength origP mutP)
              ++ toString (commonPrefixLength origP mutP + 1) ++ "*")
            (commonPrefixLength origP mutP) origP mutP)
        else if origP.length < mutP.length then
          Except.ok (mkCodingEffect Category.StopLoss v t
            ("p." ++ aaChar origP (commonPrefixLength origP mutP)
              ++ toString (commonPrefixLength origP mutP + 1) ++ "ext")
            (commonPrefixLength origP mutP) origP mutP)
        else match diffIndices origP mutP with
          | [] => Except.ok (mkCodingEffect Category.Silent v t
              ("p.=") 0 origP mutP)
          | [i] => Except.ok (mkCodingEffect Category.Substitution v t
              ("p." ++ aaChar origP i ++ toString (i + 1) ++ aaChar mutP i) i origP mutP)
          | _ :: _ :: _ => Except.ok (mkCodingEffect Category.ComplexSubstitution v t
              ("p." ++ toString (commonPrefixLength origP mutP + 1) ++ "delins")
            (commonPrefixLength origP mutP) origP mutP)
      else
        if (((v.ref.length : Int) - (v.alt.length : Int)) % 3 ≠ 0) then
          Except.ok (mkCodingEffect Category.FrameShift v t
            ("p." ++ aaChar origP (commonPrefixLength origP mutP)
              ++ toString (commonPrefixLength origP mutP + 1) ++ "fs")
            (commonPrefixLength origP mutP) origP mutP)
        else if v.ref.length < v.alt.length then
          Except.ok (mkCodingEffect Category.Insertion v t
            ("p." ++ toString (commonPrefixLength origP mutP + 1) ++ "ins")
            (commonPrefixLength origP mutP) origP mutP)
        else
          Except.ok (mkCodingEffect Category.Deletion v t
            ("p." ++ toString (commonPrefixLength origP mutP + 1) ++ "del")
            (commonPrefixLength origP mutP) origP mutP)

/-- Modelled from the spec: the classifier decision sequence of section 4.2,
first matching rule wins — incomplete annotation over an affected coding
region, then non-coding biotype, then intronic, then UTR, then the splice
window wrapping the alternate coding consequence, then the direct coding
consequence. -/
def classify (v : Variant) (t : Transcript) : Except VarcodeError Effect :=
  if (!t.hasStartCodon || !t.hasStopCodon) && affectsCDSB v t then
    Except.ok (mkSimpleEffect Category.IncompleteTranscript v t)
  else if !t.hasCDS then
    Except.ok (mkSimpleEffect Category.NoncodingTranscript v t)
  else if entirelyIntronicB v t then
    Except.ok (mkSimpleEffect Category.Intronic v t)
  else if !affectsCDSB v t then
    Except.ok (mkSimpleEffect Category.UTR v t)
  else if hitsExonicSpliceB v t then
    (classifyCoding v t).map (mkSpliceEffect Category.ExonicSpliceSite v t)
  else if hitsIntronicSpliceB v t then
    (classifyCoding v t).map (mkSpliceEffect Category.IntronicSpliceSite v t)
  else
    classifyCoding v t

/-- Category of a classification result, when it succeeded. -/
def resultCategory (r : Except VarcodeError Effect) : Option Category :=
  match r with
  | Except.ok e => some e.category
  | Except.error _ => none

/-- Category and short description of a classification result, when it
succeeded. -/
def resultCategoryDescription (r : Except VarcodeError Effect) : Option (Category × String) :=
  match r with
  | Except.ok e => some (e.category, e.description)
  | Except.error _ => none

/-- The quick-start notebook's first variant: an A-to-T change at position
140453136 of chromosome 7 on build GRCh37. -/
def brafVariant : Variant := ⟨"7", 140453136, ['A'], ['T'], "GRCh37"⟩

/-- Modelled from the spec: a coding sequence for the BRAF-001 scenario fixture
— the annotation provider's data is external, so the fixture realizes exactly
the documented facts: the transcript is completely annotated on the minus
strand and codon 600 of its reference protein is valine, read from the codon
at coding offsets 1797 to 1799. -/
def brafSeq : List Char :=
  (List.replicate 599 ['G', 'C', 'T']).flatten ++ ['G', 'T', 'G', 'T', 'A', 'A']

/-- Modelled from the spec: the ENST00000288602 (BRAF-001) scenario fixture —
a completely annotated minus-strand coding transcript whose CDS places the
variant position at coding offset 1798, inside the valine codon 600. -/
def braf001 : Transcript :=
  ⟨"ENST00000288602", "BRAF-001", Strand.minus, [(140453132, 140454934)],
    0, 1803, true, true, true, brafSeq, translate brafSeq⟩

/-- Modelled from the spec: the ENST00000479537 (BRAF-005) scenario fixture —
a transcript with incomplete annotation (no known start or stop codon) whose
annotated coding region contains the variant position. -/
def braf005 : Transcript :=
  ⟨"ENST00000479537", "BRAF-005", Strand.plus, [(140453000, 140453200)],
    0, 201, false, false, true, List.replicate 201 'A', []⟩

lemma lexLtB_irrefl : ∀ xs : List Nat, lexLtB xs xs = false := by
  intro xs
  induction xs with
  | nil => rfl
  | cons a as ih => simp [lexLtB, ih]

lemma lexLtB_trichotomy : ∀ xs ys : List Nat,
    lexLtB xs ys = true ∨ lexLtB ys xs = true ∨ xs = ys := by
  intro xs
  induction xs with
  | nil =>
    intro ys
    cases ys with
    | nil => right; right; rfl
    | cons b bs => left; rfl
  | cons a as ih =>
    intro ys
    cases ys with
    | nil => right; left; rfl
    | cons b bs =>
      rcases Nat.lt_trichotomy a b with hab | hab | hab
      · left; simp [lexLtB, hab]
      · subst hab
        rcases ih bs with h | h | h
        · left; simp [lexLtB, h]
        · right; left; simp [lexLtB, h]
        · right; right; simp [h]
      · right; left; simp [lexLtB, hab]

lemma lexLtB_asymm : ∀ xs ys : List Nat,
    lexLtB xs ys = true → lexLtB ys xs = false := by
  intro xs
  induction xs with
  | nil =>
    intro ys h
    cases ys with
    | nil => rfl
    | cons b bs => rfl
  | cons a as ih =>
    intro ys h
    cases ys with
    | nil => exact absurd h (by simp [lexLtB])
    | cons b bs =>
      by_cases hab : a < b
      · show (if b < a then true else if a < b then false else lexLtB bs as) = false
        rw [if_neg (Nat.lt_asymm hab), if_pos hab]
      · by_cases hba : b < a
        · simp only [lexLtB, if_neg hab, if_pos hba] at h
          exact absurd h Bool.false_ne_true
        · have hEq : a = b := Nat.le_antisymm (Nat.le_of_not_lt hba) (Nat.le_of_not_lt hab)
          subst hEq
          simp only [lexLtB, if_neg (Nat.lt_irrefl a)] at h ⊢
          exact ih bs h

lemma lexLtB_trans : ∀ xs ys zs : List Nat,
    lexLtB xs ys = true → lexLtB ys zs = true → lexLtB xs zs = true := by
  intro xs
  induction xs with
  | nil =>
    intro ys zs h1 h2
    cases ys with
    | nil => exact absurd h1 (by simp [lexLtB])
    | cons b bs =>
      cases zs with
      | nil => exact absurd h2 (by simp [lexLtB])
      | cons c cs => rfl
  | cons a as ih =>
    intro ys zs h1 h2
    cases ys with
    | nil => exact absurd h1 (by simp [lexLtB])
    | cons b bs =>
      cases zs with
      | nil => exact absurd h2 (by simp [lexLtB])
      | cons c cs =>
        rcases Nat.lt_trichotomy a b with hab | hab | hab
        · rcases Nat.lt_trichotomy b c with hbc | hbc | hbc
          · simp only [lexLtB, if_pos (Nat.lt_trans hab hbc)]
          · subst hbc
            simp only [lexLtB, if_pos hab]
          · simp only [lexLtB, if_neg (Nat.lt_asymm hbc), if_pos hbc] at h2
            exact absurd h2 Bool.false_ne_true
        · subst hab
          simp only [lexLtB, if_neg (Nat.lt_irrefl a)] at h1
          rcases Nat.lt_trichotomy a c with hac | hac | hac
          · simp only [lexLtB, if_pos hac]
          · subst hac
            simp only [lexLtB, if_neg (Nat.lt_irrefl a)] at h2 ⊢
            exact ih bs cs h1 h2
          · simp only [lexLtB, if_neg (Nat.lt_asymm hac), if_pos hac] at h2
            exact absurd h2 Bool.false_ne_true
        · simp only [lexLtB, if_neg (Nat.lt_asymm hab), if_pos hab] at h1
          exact absurd h1 Bool.false_ne_true

lemma lexLtB_false_trans (a b c : List Nat) (h1 : lexLtB a b = false)
    (h2 : lexLtB b c = false) : lexLtB a c = false := by
  cases hac : lexLtB a c with
  | false => rfl
  | true =>
    rcases lexLtB_trichotomy a b with h | h | h
    · rw [h1] at h
      exact absurd h Bool.false_ne_true
    · have := lexLtB_trans b a c h hac
      rw [h2] at this
      exact absurd this Bool.false_ne_true
    · subst h
      rw [h2] at hac
      exact absurd hac Bool.false_ne_true

lemma betterEffect_eq_or (e x : Effect) : betterEffect e x = e ∨ betterEffect e x = x := by
  rw [betterEffect]
  split
  · right; rfl
  · left; rfl

lemma betterEffect_ge_left (e x : Effect) :
    lexLtB (priorityKey (betterEffect e x)) (priorityKey e) = false := by
  rw [betterEffect]
  split
  · next h => exact lexLtB_asymm _ _ h
  · exact lexLtB_irrefl _

lemma betterEffect_ge_right (e x : Effect) :
    lexLtB (priorityKey (betterEffect e x)) (priorityKey x) = false := by
  rw [betterEffect]
  split
  · exact lexLtB_irrefl _
  · next h => exact Bool.of_not_eq_true h

lemma foldl_betterEffect_mem : ∀ (es : List Effect) (e : Effect),
    es.foldl betterEffect e = e ∨ es.foldl betterEffect e ∈ es := by
  intro es
  induction es with
  | nil => intro e; left; rfl
  | cons x xs ih =>
    intro e
    rw [List.foldl_cons]
    rcases ih (betterEffect e x) with h | h
    · rcases betterEffect_eq_or e x with h' | h'
      · left; rw [h, h']
      · right; rw [h, h']; exact List.mem_cons_self x xs
    · right; exact List.mem_cons_of_mem x h

lemma foldl_betterEffect_ge : ∀ (es : List Effect) (e : Effect),
    lexLtB (priorityKey (es.foldl betterEffect e)) (priorityKey e) = false ∧
      ∀ x ∈ es, lexLtB (priorityKey (es.foldl betterEffect e)) (priorityKey x) = false := by
  intro es
  induction es with
  | nil =>
    intro e
    exact ⟨lexLtB_irrefl _, by intro x hx; cases hx⟩
  | cons x xs ih =>
    intro e
    rw [List.foldl_cons]
    obtain ⟨h1, h2⟩ := ih (betterEffect e x)
    refine ⟨lexLtB_false_trans _ _ _ h1 (betterEffect_ge_left e x), ?_⟩
    intro y hy
    rcases List.mem_cons.mp hy with h | h
    · subst h
      exact lexLtB_false_trans _ _ _ h1 (betterEffect_ge_right e y)
    · exact h2 y h

/-- C3: the effect priority order (severity by category, ties broken first by
non-silent over silent, then by the transcript identifier string) is a strict
total order — for every pair of effects exactly one of `a` above `b`, `b`
above `a`, or equality of tie-break keys holds, and the order is
transitive. -/
theorem priority_order_strict_total (a b c : Effect) :
    ((a.priorityGT b ∧ ¬ b.priorityGT a ∧ priorityKey a ≠ priorityKey b) ∨
      (b.priorityGT a ∧ ¬ a.priorityGT b ∧ priorityKey a ≠ priorityKey b) ∨
      (priorityKey a = priorityKey b ∧ ¬ a.priorityGT b ∧ ¬ b.priorityGT a)) ∧
    (a.priorityGT b → b.priorityGT c → a.priorityGT c) := by
  constructor
  · rcases lexLtB_trichotomy (priorityKey b) (priorityKey a) with h | h | h
    · left
      refine ⟨h, ?_, ?_⟩
      · show ¬ lexLtB (priorityKey a) (priorityKey b) = true
        rw [lexLtB_asymm _ _ h]
        exact Bool.false_ne_true
      · intro heq
        rw [heq] at h
        rw [lexLtB_irrefl] at h
        exact absurd h Bool.false_ne_true
    · right; left
      refine ⟨h, ?_, ?_⟩
      · show ¬ lexLtB (priorityKey b) (priorityKey a) = true
        rw [lexLtB_asymm _ _ h]
        exact Bool.false_ne_true
      · intro heq
        rw [heq] at h
        rw [lexLtB_irrefl] at h
        exact absurd h Bool.false_ne_true
    · right; right
      refine ⟨h.symm, ?_, ?_⟩
      · show ¬ lexLtB (priorityKey b) (priorityKey a) = true
        rw [h, lexLtB_irrefl]
        exact Bool.false_ne_true
      · show ¬ lexLtB (priorityKey a) (priorityKey b) = true
        rw [h, lexLtB_irrefl]
        exact Bool.false_ne_true
  · intro h1 h2
    exact lexLtB_trans _ _ _ h2 h1

/-- C4: `top_priority_effect` over a singleton collection returns that single
element, over an empty collection fails with `EmptyEffectSet`, and over any
non-empty collection returns a member of the collection that no element of
the collection strictly exceeds under the priority order. -/
theorem topPriorityEffect_spec :
    (topPriorityEffect [] = Except.error VarcodeError.emptyEffectSet) ∧
    (∀ e : Effect, topPriorityEffect [e] = Except.ok e) ∧
    (∀ (l : List Effect) (e : Effect), topPriorityEffect l = Except.ok e →
      e ∈ l ∧ ∀ x ∈ l, lexLtB (priorityKey e) (priorityKey x) = false) := by
  refine ⟨rfl, fun e => rfl, ?_⟩
  intro l e hok
  cases l with
  | nil => cases hok
  | cons e0 es =>
    rw [topPriorityEffect] at hok
    have he : es.foldl betterEffect e0 = e := by
      cases hok
      rfl
    constructor
    · rcases foldl_betterEffect_mem es e0 with h | h
      · rw [he] at h
        rw [h]
        exact List.mem_cons_self e0 es
      · rw [he] at h
        exact List.mem_cons_of_mem e0 h
    · intro x hx
      obtain ⟨h1, h2⟩ := foldl_betterEffect_ge es e0
      rw [he] at h1 h2
      rcases List.mem_cons.mp hx with h | h
      · rw [h]
        exact h1
      · exact h2 x h

/-- C5: `filter_by_minimum_priority` keeps exactly the effects whose severity
is at least that of the given category, preserving the relative order of the
survivors. -/
theorem filterByMinimumPriority_spec (c : Category) (l : List Effect) :
    (filterByMinimumPriority c l).Sublist l ∧
    (∀ e : Effect, e ∈ filterByMinimumPriority c l ↔
      (e ∈ l ∧ c.severity ≤ e.category.severity)) := by
  constructor
  · exact List.filter_sublist l
  · intro e
    simp [filterByMinimumPriority, List.mem_filter]

/-- C6: `drop_silent_and_noncoding` removes exactly the effects whose category
lies in the silent and non-coding set (Silent, Intronic, UTR,
NoncodingTranscript) and keeps every effect of any other category — in
particular splice-site effects survive. -/
theorem dropSilentAndNoncoding_spec (l : List Effect) :
    (dropSilentAndNoncoding l).Sublist l ∧
    (∀ e : Effect, e ∈ dropSilentAndNoncoding l ↔
      (e ∈ l ∧ e.category ∉ silentAndNoncodingCategories)) ∧
    (∀ e : Effect, e ∈ l →
      (e.category = Category.ExonicSpliceSite ∨ e.category = Category.IntronicSpliceSite) →
      e ∈ dropSilentAndNoncoding l) := by
  refine ⟨List.filter_sublist l, ?_, ?_⟩
  · intro e
    simp [dropSilentAndNoncoding, List.mem_filter]
  · intro e he hcat
    rw [dropSilentAndNoncoding, List.mem_filter]
    refine ⟨he, ?_⟩
    rcases hcat with h | h <;>
      simp [h, silentAndNoncodingCategories]

/-- Two sequences of equal length that differ at the offset `i` and nowhere
else. -/
def differAtExactly (i : Nat) (xs ys : List Char) : Prop :=
  xs.length = ys.length ∧ i < xs.length ∧ xs.getD i '?' ≠ ys.getD i '?' ∧
    ∀ j : Nat, j ≠ i → xs.getD j '?' = ys.getD j '?'

lemma differAtExactly_cons (x y : Char) (xs ys : List Char) (m : Nat)
    (hxy : x = y) (h : differAtExactly m xs ys) :
    differAtExactly (m + 1) (x :: xs) (y :: ys) := by
  obtain ⟨hlen, hm, hne, hrest⟩ := h
  refine ⟨by simp [hlen], Nat.succ_lt_succ hm, by simpa using hne, ?_⟩
  intro j hj
  cases j with
  | zero => simpa using hxy
  | succ j' =>
    have : j' ≠ m := fun hc => hj (by rw [hc])
    simpa using hrest j' this

lemma differAtExactly_zero (x y : Char) (xs ys : List Char)
    (hxy : x ≠ y) (heq : xs = ys) :
    differAtExactly 0 (x :: xs) (y :: ys) := by
  subst heq
  refine ⟨rfl, Nat.succ_pos _, by simpa using hxy, ?_⟩
  intro j hj
  cases j with
  | zero => exact absurd rfl hj
  | succ j' => simp

lemma diffIndicesAux_nil : ∀ (xs ys : List Char) (k : Nat), xs.length = ys.length →
    diffIndicesAux k xs ys = [] → xs = ys := by
  intro xs
  induction xs with
  | nil =>
    intro ys k hlen _
    cases ys with
    | nil => rfl
    | cons y ys => simp at hlen
  | cons x xs ih =>
    intro ys k hlen h
    cases ys with
    | nil => simp at hlen
    | cons y ys =>
      rw [diffIndicesAux] at h
      by_cases hxy : x = y
      · rw [if_pos hxy] at h
        rw [hxy, ih ys (k + 1) (by simpa using hlen) h]
      · rw [if_neg hxy] at h
        cases h

lemma diffIndicesAux_singleton : ∀ (xs ys : List Char) (k i : Nat),
    xs.length = ys.length → diffIndicesAux k xs ys = [i] →
    ∃ m, i = k + m ∧ differAtExactly m xs ys := by
  intro xs
  induction xs with
  | nil =>
    intro ys k i hlen h
    cases ys with
    | nil => cases h
    | cons y ys => simp at hlen
  | cons x xs ih =>
    intro ys k i hlen h
    cases ys with
    | nil => simp at hlen
    | cons y ys =>
      rw [diffIndicesAux] at h
      by_cases hxy : x = y
      · rw [if_pos hxy] at h
        obtain ⟨m, hm, hd⟩ := ih ys (k + 1) i (by simpa using hlen) h
        refine ⟨m + 1, by omega, differAtExactly_cons x y xs ys m hxy hd⟩
      · rw [if_neg hxy] at h
        injection h with h1 h2
        subst h1
        have heq : xs = ys := diffIndicesAux_nil xs ys (k + 1) (by simpa using hlen) h2
        exact ⟨0, by omega, differAtExactly_zero x y xs ys hxy heq⟩

lemma diffIndices_nil_eq (xs ys : List Char) (hlen : xs.length = ys.length)
    (h : diffIndices xs ys = []) : xs = ys :=
  diffIndicesAux_nil xs ys 0 hlen h

lemma diffIndices_singleton (xs ys : List Char) (i : Nat) (hlen : xs.length = ys.length)
    (h : diffIndices xs ys = [i]) : differAtExactly i xs ys := by
  obtain ⟨m, hm, hd⟩ := diffIndicesAux_singleton xs ys 0 i hlen h
  have : i = m := by omega
  rw [this]
  exact hd

/-- C7: variant construction fails with `InvalidVariant` exactly when the
position is non-positive, both normalized alleles are empty (a single unknown
marker normalizing to the empty allele), or a normalized allele holds a
character outside the nucleotide alphabet; for all other inputs it
succeeds. -/
theorem variant_new_valid (contig : String) (pos : Int) (r a build : String) :
    ((Variant.new contig pos r a build).isOk = true ↔
      (0 < pos ∧ ¬(normalizeAllele r = [] ∧ normalizeAllele a = []) ∧
        ∀ ch ∈ normalizeAllele r ++ normalizeAllele a, ch ∈ nucleotideAlphabet)) ∧
    ((Variant.new contig pos r a build = Except.error VarcodeError.invalidVariant) ↔
      ¬(0 < pos ∧ ¬(normalizeAllele r = [] ∧ normalizeAllele a = []) ∧
        ∀ ch ∈ normalizeAllele r ++ normalizeAllele a, ch ∈ nucleotideAlphabet)) := by
  rw [Variant.new]
  by_cases h1 : pos ≤ 0
  · rw [if_pos h1]
    have : ¬ (0 < pos) := Int.not_lt.mpr h1
    constructor
    · constructor
      · intro hk
        exact absurd hk (by simp [Except.isOk, Except.toBool])
      · intro hc
        exact absurd hc.1 this
    · constructor
      · intro _
        intro hc
        exact absurd hc.1 this
      · intro _
        rfl
  · rw [if_neg h1]
    have hpos : 0 < pos := Int.not_le.mp h1
    by_cases h2 : normalizeAllele r = [] ∧ normalizeAllele a = []
    · rw [if_pos h2]
      constructor
      · constructor
        · intro hk
          exact absurd hk (by simp [Except.isOk, Except.toBool])
        · intro hc
          exact absurd h2 hc.2.1
      · constructor
        · intro _
          intro hc
          exact absurd h2 hc.2.1
        · intro _
          rfl
    · rw [if_neg h2]
      by_cases h3 : alleleCharsValid (normalizeAllele r ++ normalizeAllele a) = true
      · rw [if_pos h3]
        have hall : ∀ ch ∈ normalizeAllele r ++ normalizeAllele a, ch ∈ nucleotideAlphabet := by
          intro ch hch
          have := (List.all_eq_true.mp h3) ch hch
          exact of_decide_eq_true this
        constructor
        · constructor
          · intro _
            exact ⟨hpos, h2, hall⟩
          · intro _
            rfl
        · constructor
          · intro hbad
            cases hbad
          · intro hc
            exact absurd ⟨hpos, h2, hall⟩ hc
      · rw [if_neg h3]
        have hnall : ¬ ∀ ch ∈ normalizeAllele r ++ normalizeAllele a, ch ∈ nucleotideAlphabet := by
          intro hall
          refine h3 (List.all_eq_true.mpr ?_)
          intro ch hch
          exact decide_eq_true (hall ch hch)
        constructor
        · constructor
          · intro hk
            exact absurd hk (by simp [Except.isOk, Except.toBool])
          · intro hc
            exact absurd hc.2.2 hnall
        · constructor
          · intro _
            intro hc
            exact absurd hc.2.2 hnall
          · intro _
            rfl

/-- C9: a valid variant's canonical short description is exactly the
substitution form — chr, contig, the genomic position, the reference allele, a
greater-than sign and the alternate allele — when the reference allele is
non-empty, and the insertion form — the flanking position pair and the
inserted bases — when it is empty; on the notebook's two displayed variants
this reproduces their texts exactly, independent of the case of the input
alleles. -/
theorem shortDescription_spec :
    (∀ (contig : String) (pos : Int) (r a build : String) (v : Variant),
      Variant.new contig pos r a build = Except.ok v →
        (normalizeAllele r ≠ [] →
          v.shortDescription = "chr" ++ contig ++ " g." ++ toString pos
            ++ String.mk (normalizeAllele r) ++ ">" ++ String.mk (normalizeAllele a)) ∧
        (normalizeAllele r = [] →
          v.shortDescription = "chr" ++ contig ++ " g." ++ toString pos ++ "_"
            ++ toString (pos + 1) ++ "ins" ++ String.mk (normalizeAllele a))) ∧
    ((Variant.new ("7") 140453136 ("a") ("t") ("GRCh37")).map Variant.shortDescription
      = Except.ok ("chr7 g.140453136A>T")) ∧
    ((Variant.new ("17") 7577548 (".") ("A") ("GRCh37")).map Variant.shortDescription
      = Except.ok ("chr17 g.7577548_7577549insA")) := by
  refine ⟨?_, by rfl, by rfl⟩
  intro contig pos r a build v hok
  rw [Variant.new] at hok
  by_cases h1 : pos ≤ 0
  · rw [if_pos h1] at hok
    cases hok
  · rw [if_neg h1] at hok
    by_cases h2 : normalizeAllele r = [] ∧ normalizeAllele a = []
    · rw [if_pos h2] at hok
      cases hok
    · rw [if_neg h2] at hok
      by_cases h3 : alleleCharsValid (normalizeAllele r ++ normalizeAllele a) = true
      · rw [if_pos h3] at hok
        have hv : v = ⟨contig, pos, normalizeAllele r, normalizeAllele a, build⟩ := by
          cases hok
          rfl
        subst hv
        constructor
        · intro hr
          rw [Variant.shortDescription, if_neg hr]
        · intro hr
          rw [Variant.shortDescription, if_pos hr]
      · rw [if_neg h3] at hok
        cases hok

lemma exonicOffset_some_mem : ∀ (exons : List (Int × Int)) (g : Int) (o : Nat),
    exonicOffset exons g = some o → ∃ iv ∈ exons, iv.1 ≤ g ∧ g ≤ iv.2 := by
  intro exons
  induction exons with
  | nil =>
    intro g o h
    cases h
  | cons iv rest ih =>
    intro g o h
    rw [exonicOffset] at h
    by_cases hc : iv.1 ≤ g ∧ g ≤ iv.2
    · exact ⟨iv, List.mem_cons_self _ _, hc⟩
    · rw [if_neg hc] at h
      cases hrest : exonicOffset rest g with
      | none =>
        rw [hrest] at h
        cases h
      | some o' =>
        obtain ⟨iv', hmem, hin⟩ := ih g o' hrest
        exact ⟨iv', List.mem_cons_of_mem _ hmem, hin⟩

lemma affectsCDS_not_intronic (v : Variant) (t : Transcript)
    (h : affectsCDSB v t = true) : entirelyIntronicB v t = false := by
  rw [affectsCDSB] at h
  obtain ⟨g, hg, hcond⟩ := List.any_eq_true.mp h
  cases ho : transcriptOffset t g with
  | none =>
    rw [ho] at hcond
    cases hcond
  | some o =>
    have heo : ∃ eo, exonicOffset t.exons g = some eo := by
      rw [transcriptOffset] at ho
      cases he : exonicOffset t.exons g with
      | none =>
        rw [he] at ho
        cases ho
      | some eo => exact ⟨eo, rfl⟩
    obtain ⟨eo, he⟩ := heo
    obtain ⟨iv, hmem, hin⟩ := exonicOffset_some_mem _ _ _ he
    have hany : inAnyExonB t g = true := by
      rw [inAnyExonB]
      exact List.any_eq_true.mpr ⟨iv, hmem, decide_eq_true hin⟩
    cases hE : entirelyIntronicB v t with
    | false => rfl
    | true =>
      rw [entirelyIntronicB] at hE
      have := List.all_eq_true.mp hE g hg
      rw [hany] at this
      cases this

lemma classify_eq_classifyCoding (v : Variant) (t : Transcript)
    (hstart : t.hasStartCodon = true) (hstop : t.hasStopCodon = true)
    (hcds : t.hasCDS = true) (haff : affectsCDSB v t = true)
    (hse : hitsExonicSpliceB v t = false) (hsi : hitsIntronicSpliceB v t = false) :
    classify v t = classifyCoding v t := by
  have hni := affectsCDS_not_intronic v t haff
  simp [classify, hstart, hstop, hcds, haff, hni, hse, hsi]

lemma classifyCoding_indel (v : Variant) (t : Transcript) (e : Effect)
    (hok : classifyCoding v t = Except.ok e)
    (hlen : v.ref.length ≠ v.alt.length) :
    (((v.ref.length : Int) - (v.alt.length : Int)) % 3 ≠ 0 →
      e.category = Category.FrameShift) ∧
    (((v.ref.length : Int) - (v.alt.length : Int)) % 3 = 0 →
      e.category = Category.Insertion ∨ e.category = Category.Deletion) := by
  rw [classifyCoding] at hok
  cases hc : cdnaAlleleStart v t with
  | none =>
    rw [hc] at hok
    simp at hok
  | some cst =>
    rw [hc] at hok
    simp only [] at hok
    set coding := codingSequence t with hcodingDef
    set refC := strandCorrect t v.ref with hrefDef
    by_cases hr : List.take refC.length (List.drop (cst - t.cdsStart) coding) ≠ refC
    · rw [if_pos hr] at hok
      cases hok
    · rw [if_neg hr, if_neg hlen] at hok
      by_cases h3 : ((v.ref.length : Int) - (v.alt.length : Int)) % 3 ≠ 0
      · rw [if_pos h3] at hok
        injection hok with h
        subst h
        constructor
        · intro _
          rfl
        · intro hz
          exact absurd hz h3
      · rw [if_neg h3] at hok
        by_cases h4 : v.ref.length < v.alt.length
        · rw [if_pos h4] at hok
          injection hok with h
          subst h
          constructor
          · intro hz
            exact absurd hz h3
          · intro _
            left
            rfl
        · rw [if_neg h4] at hok
          injection hok with h
          subst h
          constructor
          · intro hz
            exact absurd hz h3
          · intro _
            right
            rfl

/-- C2: against a completely annotated coding transcript whose CDS the variant
affects, outside the splice-site window, an indel whose allele-length
difference is not divisible by 3 always classifies as `FrameShift` — never
in-frame `Insertion` or `Deletion` — and an indel whose length difference is
divisible by 3 classifies as an in-frame `Insertion` or `Deletion`. -/
theorem frameshift_vs_inframe (v : Variant) (t : Transcript) (e : Effect)
    (hstart : t.hasStartCodon = true) (hstop : t.hasStopCodon = true)
    (hcds : t.hasCDS = true) (haff : affectsCDSB v t = true)
    (hse : hitsExonicSpliceB v t = false) (hsi : hitsIntronicSpliceB v t = false)
    (hlen : v.ref.length ≠ v.alt.length)
    (hok : classify v t = Except.ok e) :
    (((v.ref.length : Int) - (v.alt.length : Int)) % 3 ≠ 0 →
      e.category = Category.FrameShift ∧ e.category ≠ Category.Insertion ∧
        e.category ≠ Category.Deletion) ∧
    (((v.ref.length : Int) - (v.alt.length : Int)) % 3 = 0 →
      e.category = Category.Insertion ∨ e.category = Category.Deletion) := by
  rw [classify_eq_classifyCoding v t hstart hstop hcds haff hse hsi] at hok
  obtain ⟨h1, h2⟩ := classifyCoding_indel v t e hok hlen
  constructor
  · intro hz
    have hfs := h1 hz
    rw [hfs]
    exact ⟨rfl, by decide, by decide⟩
  · exact h2

lemma classify_coding_branch (v : Variant) (t : Transcript) (e : Effect)
    (hok : classify v t = Except.ok e)
    (hcat : e.category = Category.Silent ∨ e.category = Category.Substitution) :
    classifyCoding v t = Except.ok e := by
  rw [classify] at hok
  by_cases h1 : ((!t.hasStartCodon || !t.hasStopCodon) && affectsCDSB v t) = true
  · rw [if_pos h1] at hok
    injection hok with h
    subst h
    rcases hcat with h | h <;> simp [mkSimpleEffect, Effect.category] at h
  · rw [if_neg h1] at hok
    by_cases h2 : (!t.hasCDS) = true
    · rw [if_pos h2] at hok
      injection hok with h
      subst h
      rcases hcat with h | h <;> simp [mkSimpleEffect, Effect.category] at h
    · rw [if_neg h2] at hok
      by_cases h3 : entirelyIntronicB v t = true
      · rw [if_pos h3] at hok
        injection hok with h
        subst h
        rcases hcat with h | h <;> simp [mkSimpleEffect, Effect.category] at h
      · rw [if_neg h3] at hok
        by_cases h4 : (!affectsCDSB v t) = true
        · rw [if_pos h4] at hok
          injection hok with h
          subst h
          rcases hcat with h | h <;> simp [mkSimpleEffect, Effect.category] at h
        · rw [if_neg h4] at hok
          by_cases h5 : hitsExonicSpliceB v t = true
          · rw [if_pos h5] at hok
            cases hcc : classifyCoding v t with
            | error err =>
              rw [hcc] at hok
              simp [Except.map] at hok
            | ok a =>
              rw [hcc] at hok
              simp only [Except.map] at hok
              injection hok with h
              subst h
              rcases hcat with h | h <;> simp [mkSpliceEffect, Effect.category] at h
          · rw [if_neg h5] at hok
            by_cases h6 : hitsIntronicSpliceB v t = true
            · rw [if_pos h6] at hok
              cases hcc : classifyCoding v t with
              | error err =>
                rw [hcc] at hok
                simp [Except.map] at hok
              | ok a =>
                rw [hcc] at hok
                simp only [Except.map] at hok
                injection hok with h
                subst h
                rcases hcat with h | h <;> simp [mkSpliceEffect, Effect.category] at h
            · rw [if_neg h6] at hok
              exact hok

lemma classifyCoding_substitution (v : Variant) (t : Transcript) (e : Effect)
    (hok : classifyCoding v t = Except.ok e)
    (hcat : e.category = Category.Substitution) :
    ∃ (i : Nat) (op mp : List Char), e.aaMutationStartOffset = some i ∧
      e.originalProtein = some op ∧ e.mutantProtein = some mp ∧
      differAtExactly i op mp ∧
      e.description = "p." ++ String.mk [op.getD i '?'] ++ toString (i + 1)
        ++ String.mk [mp.getD i '?'] := by
  rw [classifyCoding] at hok
  cases hc : cdnaAlleleStart v t with
  | none =>
    rw [hc] at hok
    simp at hok
  | some cst =>
    rw [hc] at hok
    simp only [] at hok
    set coding := codingSequence t with hcodingDef
    set refC := strandCorrect t v.ref with hrefDef
    set altC := strandCorrect t v.alt with haltDef
    by_cases hr : List.take refC.length (List.drop (cst - t.cdsStart) coding) ≠ refC
    · rw [if_pos hr] at hok
      cases hok
    · rw [if_neg hr] at hok
      set origP := translate coding with hOrigDef
      set mutP := translate (List.take (cst - t.cdsStart) coding ++ altC
        ++ List.drop (cst - t.cdsStart + refC.length) coding) with hMutDef
      by_cases heq : v.ref.length = v.alt.length
      · rw [if_pos heq] at hok
        by_cases hsg : mutP.length < origP.length
        · rw [if_pos hsg] at hok
          injection hok with h
          subst h
          simp [mkCodingEffect, Effect.category] at hcat
        · rw [if_neg hsg] at hok
          by_cases hsl : origP.length < mutP.length
          · rw [if_pos hsl] at hok
            injection hok with h
            subst h
            simp [mkCodingEffect, Effect.category] at hcat
          · rw [if_neg hsl] at hok
            have hlen : origP.length = mutP.length :=
              Nat.le_antisymm (Nat.le_of_not_lt hsg) (Nat.le_of_not_lt hsl)
            cases hd : diffIndices origP mutP with
            | nil =>
              rw [hd] at hok
              simp only [] at hok
              injection hok with h
              subst h
              simp [mkCodingEffect, Effect.category] at hcat
            | cons i rest =>
              cases rest with
              | nil =>
                rw [hd] at hok
                simp only [] at hok
                injection hok with h
                subst h
                refine ⟨i, origP, mutP, rfl, rfl, rfl, ?_, ?_⟩
                · exact diffIndices_singleton origP mutP i hlen hd
                · rw [mkCodingEffect]
                  show ("p." ++ aaChar origP i ++ toString (i + 1) ++ aaChar mutP i)
                    = "p." ++ String.mk [origP.getD i '?'] ++ toString (i + 1)
                      ++ String.mk [mutP.getD i '?']
                  rw [aaChar, aaChar]
              | cons j rest2 =>
                rw [hd] at hok
                simp only [] at hok
                injection hok with h
                subst h
                simp [mkCodingEffect, Effect.category] at hcat
      · rw [if_neg heq] at hok
        by_cases h3 : ((v.ref.length : Int) - (v.alt.length : Int)) % 3 ≠ 0
        · rw [if_pos h3] at hok
          injection hok with h
          subst h
          simp [mkCodingEffect, Effect.category] at hcat
        · rw [if_neg h3] at hok
          by_cases h4 : v.ref.length < v.alt.length
          · rw [if_pos h4] at hok
            injection hok with h
            subst h
            simp [mkCodingEffect, Effect.category] at hcat
          · rw [if_neg h4] at hok
            injection hok with h
            subst h
            simp [mkCodingEffect, Effect.category] at hcat

lemma classifyCoding_silent (v : Variant) (t : Transcript) (e : Effect)
    (hok : classifyCoding v t = Except.ok e)
    (hcat : e.category = Category.Silent) :
    ∃ op : List Char, e.originalProtein = some op ∧ e.mutantProtein = some op := by
  rw [classifyCoding] at hok
  cases hc : cdnaAlleleStart v t with
  | none =>
    rw [hc] at hok
    simp at hok
  | some cst =>
    rw [hc] at hok
    simp only [] at hok
    set coding := codingSequence t with hcodingDef
    set refC := strandCorrect t v.ref with hrefDef
    set altC := strandCorrect t v.alt with haltDef
    by_cases hr : List.take refC.length (List.drop (cst - t.cdsStart) coding) ≠ refC
    · rw [if_pos hr] at hok
      cases hok
    · rw [if_neg hr] at hok
      set origP := translate coding with hOrigDef
      set mutP := translate (List.take (cst - t.cdsStart) coding ++ altC
        ++ List.drop (cst - t.cdsStart + refC.length) coding) with hMutDef
      by_cases heq : v.ref.length = v.alt.length
      · rw [if_pos heq] at hok
        by_cases hsg : mutP.length < origP.length
        · rw [if_pos hsg] at hok
          injection hok with h
          subst h
          simp [mkCodingEffect, Effect.category] at hcat
        · rw [if_neg hsg] at hok
          by_cases hsl : origP.length < mutP.length
          · rw [if_pos hsl] at hok
            injection hok with h
            subst h
            simp [mkCodingEffect, Effect.category] at hcat
          · rw [if_neg hsl] at hok
            have hlen : origP.length = mutP.length :=
              Nat.le_antisymm (Nat.le_of_not_lt hsg) (Nat.le_of_not_lt hsl)
            cases hd : diffIndices origP mutP with
            | nil =>
              rw [hd] at hok
              simp only [] at hok
              injection hok with h
              subst h
              have heqP : origP = mutP := diffIndices_nil_eq origP mutP hlen hd
              refine ⟨origP, rfl, ?_⟩
              show some mutP = some origP
              rw [heqP]
            | cons i rest =>
              cases rest with
              | nil =>
                rw [hd] at hok
                simp only [] at hok
                injection hok with h
                subst h
                simp [mkCodingEffect, Effect.category] at hcat
              | cons j rest2 =>
                rw [hd] at hok
                simp only [] at hok
                injection hok with h
                subst h
                simp [mkCodingEffect, Effect.category] at hcat
      · rw [if_neg heq] at hok
        by_cases h3 : ((v.ref.length : Int) - (v.alt.length : Int)) % 3 ≠ 0
        · rw [if_pos h3] at hok
          injection hok with h
          subst h
          simp [mkCodingEffect, Effect.category] at hcat
        · rw [if_neg h3] at hok
          by_cases h4 : v.ref.length < v.alt.length
          · rw [if_pos h4] at hok
            injection hok with h
            subst h
            simp [mkCodingEffect, Effect.category] at hcat
          · rw [if_neg h4] at hok
            injection hok with h
            subst h
            simp [mkCodingEffect, Effect.category] at hcat

/-- C8: every classification result whose category is `Silent` carries equal
original and mutant protein sequences, and every result whose category is
`Substitution` carries original and mutant protein sequences that differ at
exactly one amino-acid offset. -/
theorem silent_and_substitution_protein (v : Variant) (t : Transcript) (e : Effect)
    (hok : classify v t = Except.ok e) :
    (e.category = Category.Silent → e.originalProtein = e.mutantProtein) ∧
    (e.category = Category.Substitution →
      ∃ (i : Nat) (op mp : List Char), e.originalProtein = some op ∧
        e.mutantProtein = some mp ∧ differAtExactly i op mp) := by
  constructor
  · intro hcat
    have hcc := classify_coding_branch v t e hok (Or.inl hcat)
    obtain ⟨op, h1, h2⟩ := classifyCoding_silent v t e hcc hcat
    rw [h1, h2]
  · intro hcat
    have hcc := classify_coding_branch v t e hok (Or.inr hcat)
    obtain ⟨i, op, mp, _, h2, h3, h4, _⟩ := classifyCoding_substitution v t e hcc hcat
    exact ⟨i, op, mp, h2, h3, h4⟩

/-- C10: every `Substitution` effect carries a 0-based amino-acid offset valid
into both protein sequences, the two sequences differ exactly at that offset,
and the protein-change description writes the 1-based residue number, that
offset plus one, between the original and mutant residues. -/
theorem substitution_offset_description (v : Variant) (t : Transcript) (e : Effect)
    (hok : classify v t = Except.ok e)
    (hcat : e.category = Category.Substitution) :
    ∃ (i : Nat) (op mp : List Char), e.aaMutationStartOffset = some i ∧
      e.originalProtein = some op ∧ e.mutantProtein = some mp ∧
      i < op.length ∧ i < mp.length ∧ op.getD i '?' ≠ mp.getD i '?' ∧
      (∀ j : Nat, j ≠ i → op.getD j '?' = mp.getD j '?') ∧
      e.description = "p." ++ String.mk [op.getD i '?'] ++ toString (i + 1)
        ++ String.mk [mp.getD i '?'] := by
  have hcc := classify_coding_branch v t e hok (Or.inr hcat)
  obtain ⟨i, op, mp, h1, h2, h3, hd, h5⟩ := classifyCoding_substitution v t e hcc hcat
  obtain ⟨hlen, hi, hne, hrest⟩ := hd
  refine ⟨i, op, mp, h1, h2, h3, hi, ?_, hne, hrest, h5⟩
  rw [← hlen]
  exact hi

set_option maxHeartbeats 3200000 in
/-- C1: the variant (contig 7, position 140453136, ref A, alt T, build GRCh37)
classified against the ENST00000288602 (BRAF-001) fixture yields a
`Substitution` whose protein change description is p.V600E, and against the
ENST00000479537 (BRAF-005) fixture, which lacks complete annotation, yields an
`IncompleteTranscript`. -/
theorem braf_scenario :
    resultCategoryDescription (classify brafVariant braf001)
      = some (Category.Substitution, "p.V600E") ∧
    resultCategory (classify brafVariant braf005) = some Category.IncompleteTranscript := by
  constructor
  · decide
  · decide

/-- A toy completely annotated plus-strand coding transcript: one exon at
genomic positions 1 to 9, entirely CDS, coding sequence GCTGCTTAA, protein
AA. -/
def toySeq : List Char := ['G', 'C', 'T', 'G', 'C', 'T', 'T', 'A', 'A']

def toyTranscript : Transcript :=
  ⟨"ENST-TOY1", "TOY-001", Strand.plus, [(1, 9)], 0, 9, true, true, true,
    toySeq, translate toySeq⟩

/-- T-to-C at position 3, third base of the first codon: GCT and GCC both
code alanine, a silent change. -/
def silentVariant : Variant := ⟨"1", 3, ['T'], ['C'], "GRCh37"⟩

/-- G-to-C at position 4, first base of the second codon: GCT alanine becomes
CCT proline, a substitution. -/
def substitutionVariant : Variant := ⟨"1", 4, ['G'], ['C'], "GRCh37"⟩

/-- C-to-CA at position 5: one inserted base, a frameshift. -/
def frameshiftVariant : Variant := ⟨"1", 5, ['C'], ['C', 'A'], "GRCh37"⟩

/-- C-to-CAAA at position 5: three inserted bases, an in-frame insertion. -/
def inFrameVariant : Variant := ⟨"1", 5, ['C'], ['C', 'A', 'A', 'A'], "GRCh37"⟩

def fallbackEffect : Effect :=
  Effect.mk Category.Silent brafVariant ("x") ("x") ("x") none none none none

def okEffect (r : Except VarcodeError Effect) : Effect :=
  match r with
  | Except.ok e => e
  | Except.error _ => fallbackEffect

def silentEffect : Effect := okEffect (classify silentVariant toyTranscript)

def substitutionEffect : Effect := okEffect (classify substitutionVariant toyTranscript)

def frameshiftEffect : Effect := okEffect (classify frameshiftVariant toyTranscript)

def inFrameEffect : Effect := okEffect (classify inFrameVariant toyTranscript)

/-- Witness for C2 at concrete inputs: a one-base insertion into the toy
transcript classifies as `FrameShift` and a three-base insertion as an
in-frame `Insertion`. -/
theorem frameshift_vs_inframe_witness :
    (frameshiftEffect.category = Category.FrameShift ∧
      frameshiftEffect.category ≠ Category.Insertion ∧
      frameshiftEffect.category ≠ Category.Deletion) ∧
    (inFrameEffect.category = Category.Insertion ∨
      inFrameEffect.category = Category.Deletion) := by
  constructor
  · exact (frameshift_vs_inframe frameshiftVariant toyTranscript frameshiftEffect
      (by rfl) (by rfl) (by rfl) (by rfl) (by rfl) (by rfl) (by decide) (by rfl)).1
      (by decide)
  · exact (frameshift_vs_inframe inFrameVariant toyTranscript inFrameEffect
      (by rfl) (by rfl) (by rfl) (by rfl) (by rfl) (by rfl) (by decide) (by rfl)).2
      (by decide)

/-- Witness for C8 at concrete inputs: the silent toy change keeps the protein
sequences equal, and the toy substitution differs at exactly one offset. -/
theorem silent_and_substitution_protein_witness :
    (silentEffect.originalProtein = silentEffect.mutantProtein) ∧
    (∃ (i : Nat) (op mp : List Char), substitutionEffect.originalProtein = some op ∧
      substitutionEffect.mutantProtein = some mp ∧ differAtExactly i op mp) := by
  constructor
  · exact (silent_and_substitution_protein silentVariant toyTranscript silentEffect
      (by rfl)).1 (by rfl)
  · exact (silent_and_substitution_protein substitutionVariant toyTranscript
      substitutionEffect (by rfl)).2 (by rfl)

/-- Witness for C10 at a concrete input: the toy substitution carries offset,
protein sequences and description related exactly as claimed. -/
theorem substitution_offset_description_witness :
    ∃ (i : Nat) (op mp : List Char),
      substitutionEffect.aaMutationStartOffset = some i ∧
      substitutionEffect.originalProtein = some op ∧
      substitutionEffect.mutantProtein = some mp ∧
      i < op.length ∧ i < mp.length ∧ op.getD i '?' ≠ mp.getD i '?' ∧
      (∀ j : Nat, j ≠ i → op.getD j '?' = mp.getD j '?') ∧
      substitutionEffect.description = "p." ++ String.mk [op.getD i '?']
        ++ toString (i + 1) ++ String.mk [mp.getD i '?'] :=
  substitution_offset_description substitutionVariant toyTranscript substitutionEffect
    (by rfl) (by rfl)

end Varcode
